import Mathlib

/-!
# fysh front end: token model and command-line driver

A shallow embedding of `src/Token.h` (the `Token` class) and of `src/main.cc`
(`Options`, the driver `compyle`, `parseOptions`), with the properties of the
design document proved about the embedded definitions.

Conventions of the embedding.

* A `const char *` is an address, a natural number; address `0` is `nullptr`.
  The contents of memory are a function from addresses to characters.
* `std::size_t` and `std::ptrdiff_t` are 64 bits wide; a conversion to
  `std::size_t` reduces modulo `2 ^ 64`.
* The components the driver calls but whose code is in other translation units
  (lexer, parser, AST printer, `Compyler`, `Program`) are fields of `Deps`; the
  driver itself returns the ordered list of the effects it performs.
-/

namespace Fysh

/-! ## Token.h -/

/-- The closed set of token kinds, `enum class TokenType`. -/
inductive TokenType
  | FYSH_LITERAL
  | FYSH_IDENTIFIER
  | HEART_MULTIPLY
  | DIVIDE
  | TADPOLE_LT
  | TADPOLE_GT
  | TADPOLE_LTE
  | TADPOLE_GTE
  | EQUAL
  | NOT_EQUAL
  | INCREMENT
  | DECREMENT
  | FYSH_TANK_OPEN
  | FYSH_TANK_CLOSE
  | FYSH_OPEN
  | FYSH_CLOSE
  | WTF_OPEN
  | WTF_CLOSE
  | COMMENT
  | OPENING_COMMENT
  | CLOSING_COMMENT
  deriving DecidableEq, Repr

/-- Memory as the token model sees it: the character stored at each address. -/
abbrev Memory := Nat → Char

/-- Width of `std::size_t` and `std::ptrdiff_t`. -/
def SIZE_BITS : Nat := 64

/-- Conversion of a signed value to `std::size_t`. -/
def toSizeT (d : Int) : Nat := (d % (2 : Int) ^ SIZE_BITS).toNat

/-- The pointer difference `std::distance(start, end)`, a `std::ptrdiff_t`. -/
def distance (start end_ : Nat) : Int := (end_ : Int) - (start : Int)

/-- A `std::string_view`: a pointer and a length, owning nothing. -/
structure StringView where
  data : Nat := 0
  size : Nat := 0
  deriving DecidableEq, Repr

namespace StringView

/-- The `std::char_traits<char>::compare(p, q, n)` of the standard library:
the sign of the first difference among the first `n` characters, `0` when
there is none. -/
def traitsCompare (mem : Memory) (p q : Nat) : Nat → Int
  | 0 => 0
  | n + 1 =>
    if (mem p).toNat < (mem q).toNat then -1
    else if (mem q).toNat < (mem p).toNat then 1
    else traitsCompare mem (p + 1) (q + 1) n

/-- The `std::string_view::compare`: the common prefix is compared first, the
lengths break a tie. -/
def compare (mem : Memory) (x y : StringView) : Int :=
  let rlen := min x.size y.size
  let ret := traitsCompare mem x.data y.data rlen
  if ret = 0 then
    (if x.size < y.size then -1 else if y.size < x.size then 1 else 0)
  else ret

/-- The `operator==` of `std::string_view`. -/
def eq (mem : Memory) (x y : StringView) : Bool :=
  x.size == y.size && compare mem x y == 0

/-- The character sequence a view denotes: the `size` characters stored from
`data` on. -/
def chars (mem : Memory) (v : StringView) : List Char :=
  (List.range v.size).map (fun i => mem (v.data + i))

end StringView

/-- The `class Token`: its two private fields, each with its default
initialiser (`tokenType{}` is the first enumerator, `value{}` the empty view). -/
structure Token where
  tokenType : TokenType := TokenType.FYSH_LITERAL
  value : StringView := {}
  deriving DecidableEq, Repr

namespace Token

/-- Constructor `Token(TokenType inType)`. -/
def ofType (inType : TokenType) : Token :=
  { tokenType := inType }

/-- Constructor `Token(TokenType inType, const char *start, std::size_t len)`. -/
def ofLen (inType : TokenType) (start : Nat) (len : Nat) : Token :=
  { tokenType := inType, value := { data := start, size := len } }

/-- Constructor `Token(TokenType inType, const char *start, const char *end)`. -/
def ofRange (inType : TokenType) (start end_ : Nat) : Token :=
  { tokenType := inType,
    value := { data := start, size := toSizeT (distance start end_) } }

/-- The variadic `isOneOf(type1, type2, ks...)`. With an empty pack overload
resolution picks the non-template two-argument member, which `Token.h` only
declares: it is the parameter `isOneOfBase`. Otherwise the template tests
`type1` and recurses on `type2, ks...`. -/
def isOneOf (isOneOfBase : Token → TokenType → TokenType → Bool) (t : Token)
    (type1 type2 : TokenType) : List TokenType → Bool
  | [] => isOneOfBase t type1 type2
  | k :: ks => t.tokenType == type1 || isOneOf isOneOfBase t type2 k ks

/-- Modelled from the spec: the two-argument `isOneOf(type1, type2)`, declared
in `Token.h` and defined in a translation unit that is not among the sources;
the membership test over two kinds. -/
def isOneOf2 (t : Token) (type1 type2 : TokenType) : Bool :=
  t.tokenType == type1 || t.tokenType == type2

/-- The `operator==(const TokenType &)`. -/
def eqType (t : Token) (type : TokenType) : Bool :=
  t.tokenType == type

/-- The `operator==(const Token &other)`. -/
def eq (mem : Memory) (t other : Token) : Bool :=
  other.tokenType == t.tokenType && StringView.eq mem other.value t.value

/-- The lexeme of a token: the characters its view denotes. -/
def lexeme (mem : Memory) (t : Token) : List Char :=
  t.value.chars mem

end Token

/-- A source buffer for the examples: the text `><> o~ ><>` stored from address
`0` on, blanks elsewhere. -/
def sampleMemory : Memory := fun a => ['>', '<', '>', ' ', 'o', '~', ' ', '>', '<', '>'].getD a ' '

/-! ## main.cc: the driver -/

namespace Options

/-- The nested `enum class Output { AST, IR }`. -/
inductive Output
  | AST
  | IR
  deriving DecidableEq, Repr

end Options

/-- The `struct Options`. The member `output` has no default member
initialiser; `noOpt` and `outputFilename` have one. -/
structure Options where
  output : Options.Output
  noOpt : Bool := false
  outputFilename : String := "-"
  deriving DecidableEq, Repr

namespace ast

/-- A top-level statement, `fysh::ast::FyshStmt`, a variant. The driver tells
the `Error` alternative (with its raw text) from all others and looks no
further, so the other alternatives are kept abstract in `Node`. -/
inductive FyshStmt (Node : Type)
  | Error (raw : String)
  | node (n : Node)
  deriving DecidableEq, Repr

/-- A program, `fysh::ast::FyshBlock`: the ordered sequence of top-level
statements. -/
abbrev FyshBlock (Node : Type) := List (FyshStmt Node)

/-- The `std::get_if<fysh::ast::Error>(&stmt)` followed by `getraw()`: the raw
text when the statement holds the `Error` alternative, nothing otherwise. -/
def getIfError {Node : Type} : FyshStmt Node → Option String
  | FyshStmt.Error raw => some raw
  | FyshStmt.node _ => none

end ast

/-- The components the driver calls whose code is in other translation units.
`Program` is the type `fysh::Program`. -/
structure Deps (Node Program : Type) where
  /-- Lexer and parser run on the source text: `parser.parseProgram()`. -/
  parseProgram : String → ast.FyshBlock Node
  /-- The text `operator<<` writes for a program. -/
  dump : ast.FyshBlock Node → String
  /-- The `Compyler::compyle(program, skipOptimizations)`. -/
  compyle : ast.FyshBlock Node → Bool → Program
  /-- The `Program::empty()`. -/
  empty : Program → Bool

/-- What the driver does, one entry per statement with an effect. -/
inductive Effect (Node Program : Type)
  /-- Text written to `std::cout`. -/
  | cout (text : String)
  /-- Text written to `std::cerr`. -/
  | cerr (text : String)
  /-- A call of `Compyler::compyle` with these arguments. -/
  | compyleCall (program : ast.FyshBlock Node) (skipOptimizations : Bool)
  /-- A call of `Program::print` on `p` with this destination. -/
  | print (p : Program) (outputFilename : String)
  deriving DecidableEq, Repr

/-- The driver `compyle(std::istream &stream, Options opts)`; `source` is the
whole content of the stream. The result lists its effects in order. -/
def compyle {Node Program : Type} (env : Deps Node Program) (source : String)
    (opts : Options) : List (Effect Node Program) :=
  let program := env.parseProgram source
  if opts.output = Options.Output.AST then
    [Effect.cout (env.dump program)]
  else
    let err : Option String :=
      if program.length = 1 then
        match program[0]? with
        | some stmt => ast.getIfError stmt
        | none => none
      else none
    match err with
    | some raw => [Effect.cerr ("Error: " ++ raw ++ "\n")]
    | none =>
      let p := env.compyle program opts.noOpt
      Effect.compyleCall program opts.noOpt ::
        (if env.empty p then [Effect.cerr "error compyling?\n"]
         else [Effect.print p opts.outputFilename])

namespace Effect

variable {Node Program : Type}

/-- Is this entry a call of `Compyler::compyle`? -/
def isCompyleCall : Effect Node Program → Bool
  | compyleCall _ _ => true
  | _ => false

/-- Is this entry a call of `Program::print`? -/
def isPrint : Effect Node Program → Bool
  | print _ _ => true
  | _ => false

/-- Everything a run wrote to standard error. -/
def stderrText : List (Effect Node Program) → String
  | [] => ""
  | cerr text :: es => text ++ stderrText es
  | _ :: es => stderrText es

/-- Everything a run wrote to standard output. -/
def stdoutText : List (Effect Node Program) → String
  | [] => ""
  | cout text :: es => text ++ stdoutText es
  | _ :: es => stdoutText es

/-- The programs a run printed, each with its destination. -/
def printed : List (Effect Node Program) → List (Program × String)
  | [] => []
  | print p dest :: es => (p, dest) :: printed es
  | _ :: es => printed es

/-- The argument pairs of the calls of `Compyler::compyle` in a run. -/
def compyleCalls : List (Effect Node Program) → List (ast.FyshBlock Node × Bool)
  | [] => []
  | compyleCall program skip :: es => (program, skip) :: compyleCalls es
  | _ :: es => compyleCalls es

end Effect

/-- A program that is exactly one statement, an `Error` node. -/
def soleError {Node : Type} (program : ast.FyshBlock Node) : Prop :=
  ∃ raw, program = [ast.FyshStmt.Error raw]

/-- Stand-ins for the other translation units in the examples: statements
other than `Error` are numbers, a `Program` is a list of numbers. The source
`wtf` parses to a sole `Error`, `1 wtf` to a statement followed by an `Error`,
the empty source to the empty program, anything else to one statement. Code
generation fails (empty `Program`) when the program holds an `Error`. -/
def sampleDeps : Deps Nat (List Nat) where
  parseProgram := fun source =>
    if source = "" then []
    else if source = "wtf" then [ast.FyshStmt.Error "wtf"]
    else if source = "1 wtf" then [ast.FyshStmt.node 1, ast.FyshStmt.Error "wtf"]
    else [ast.FyshStmt.node 0]
  dump := fun program => String.mk (List.replicate program.length '*')
  compyle := fun program skipOptimizations =>
    if program.any (fun stmt => (ast.getIfError stmt).isSome) then []
    else if program.isEmpty then [0]
    else if skipOptimizations then [1, program.length] else [2, program.length]
  empty := List.isEmpty

/-! ## main.cc: parseOptions

`getopt` is the C library's. Its model follows POSIX `getopt` for short
options: the elements of `argv` after the program name are scanned left to
right; an element `-xyz` is a cluster of option characters; an option that
takes an argument takes the rest of its cluster or else the next element; the
element `--` ends the options. With `permute` (the GNU default) an element that
is not an option is skipped, without it the scan ends there. The diagnostics
`getopt` itself writes for an unknown option are not tracked. -/

/-- Scanning state of `getopt`: the unread option characters of the element
being scanned, the elements of `argv` not yet looked at, and `optarg`. -/
structure GetoptState where
  nextchar : List Char
  rest : List String
  optarg : String := ""
  deriving DecidableEq, Repr

/-- What is left to scan in a `getopt` state: the unread characters of the
cluster and, for each element not yet looked at, its length and one more. -/
def GetoptState.measure (st : GetoptState) : Nat :=
  st.nextchar.length + (st.rest.map (fun a => a.length + 1)).sum

/-- Lookup of an option character in an option string: `none` when it is not
an option, otherwise whether it takes an argument (a colon follows it). -/
def optLookup : List Char → Char → Option Bool
  | [], _ => none
  | o :: os, c =>
    if o = c ∧ c ≠ ':' then some (os.head? = some ':')
    else optLookup os c

/-- The next element that is an option cluster, with the elements after it:
nothing at the end of `argv`, at `--`, and (without `permute`) at the first
element that is not an option. -/
def nextCluster (permute : Bool) : List String → Option (Char × List Char × List String)
  | [] => none
  | a :: rest =>
    if a = "--" then none
    else
      match a.toList with
      | '-' :: c :: cs => some (c, cs, rest)
      | _ => if permute then nextCluster permute rest else none

/-- One option character `c` of a cluster whose unread part is `cs`. -/
def getoptChar (optstring : List Char) (c : Char) (cs : List Char)
    (rest : List String) : Int × GetoptState :=
  match optLookup optstring c with
  | none => (('?').toNat, { nextchar := cs, rest := rest })
  | some false => (c.toNat, { nextchar := cs, rest := rest })
  | some true =>
    match cs with
    | _ :: _ => (c.toNat, { nextchar := [], rest := rest, optarg := String.mk cs })
    | [] =>
      match rest with
      | a :: rest1 => (c.toNat, { nextchar := [], rest := rest1, optarg := a })
      | [] => (('?').toNat, { nextchar := [], rest := [] })

/-- One call of `getopt(argc, argv, optstring)`: the value returned (an option
character, `?`, or `-1` at the end) and the state after the call. -/
def getopt (permute : Bool) (optstring : List Char) (st : GetoptState) :
    Int × GetoptState :=
  match st.nextchar with
  | c :: cs => getoptChar optstring c cs st.rest
  | [] =>
    match nextCluster permute st.rest with
    | none => (-1, { nextchar := [], rest := [] })
    | some (c, cs, rest) => getoptChar optstring c cs rest

/-- Conversion of an `int` to `char`, a signed 8-bit type on the platforms the
compiler targets (x86-64). -/
def toChar (r : Int) : Int := (r + 128) % 256 - 128

/-- How `parseOptions` ends: it returns the options, or `-h` printed the usage
line and left the process through `std::exit`. -/
inductive ParseResult
  | returned (opts : Options)
  | exited (cout : String) (status : Int)
  deriving DecidableEq, Repr

/-- The `while ((c = getopt(argc, argv, "o:nah")) != -1) switch (c)` loop of
`parseOptions`; `fuel` bounds the number of iterations. -/
def parseOptionsLoop (permute : Bool) (argv0 : String) :
    Nat → GetoptState → Options → Option ParseResult
  | 0, _, _ => none
  | fuel + 1, st, opts =>
    let r := getopt permute "o:nah".toList st
    let c := toChar r.1
    if c = -1 then some (ParseResult.returned opts)
    else if c = ('a').toNat then
      parseOptionsLoop permute argv0 fuel r.2 { opts with output := Options.Output.AST }
    else if c = ('n').toNat then
      parseOptionsLoop permute argv0 fuel r.2 { opts with noOpt := true }
    else if c = ('o').toNat then
      parseOptionsLoop permute argv0 fuel r.2 { opts with outputFilename := r.2.optarg }
    else if c = ('h').toNat then
      some (ParseResult.exited ("USAGE: " ++ argv0 ++ "[-o OUTPUT] [-an] [INPUT]" ++ "\n") 0)
    else parseOptionsLoop permute argv0 fuel r.2 opts

/-- Number of iterations that is enough for any `argv`: every call of `getopt`
that does not return `-1` uses up a character or an element. -/
def parseOptionsFuel (args : List String) : Nat :=
  (args.map (fun a => a.length + 1)).sum + 1

/-- The `parseOptions(argc, argv)`. `Options opts;` leaves `opts.output`
uninitialised; `indeterminate` is the value that member happens to hold.
`argv` includes the program name `argv[0]`; scanning starts at `argv[1]`. -/
def parseOptions (permute : Bool) (indeterminate : Options.Output)
    (argv : List String) : Option ParseResult :=
  parseOptionsLoop permute (argv.headD "") (parseOptionsFuel argv.tail)
    { nextchar := [], rest := argv.tail } { output := indeterminate }

/-- A command-line flag as the user writes it. -/
inductive Flag
  | a
  | n
  | o (arg : String)
  | unknown (c : Char)
  deriving DecidableEq, Repr

namespace Flag

/-- The elements of `argv` a flag is written as: `-a`, `-n`, `-o ARG`, `-c`. -/
def render : Flag → List String
  | a => ["-a"]
  | n => ["-n"]
  | o arg => ["-o", arg]
  | unknown c => [String.mk ['-', c]]

/-- An unknown flag is written with a character that is neither an option
character of `parseOptions` nor the dash of the `--` marker. -/
def wellFormed : Flag → Prop
  | unknown c => c ∉ ['o', 'n', 'a', 'h', '-']
  | _ => True

/-- The argument of the last `-o` among the flags, `dflt` when there is none. -/
def lastOutput (dflt : String) : List Flag → String
  | [] => dflt
  | o arg :: fs => lastOutput arg fs
  | _ :: fs => lastOutput dflt fs

end Flag

/-- The `argv` of a run of `prog` with the given flags. -/
def renderArgv (prog : String) (flags : List Flag) : List String :=
  prog :: (flags.map Flag.render).flatten

/-! ## Token.h: properties -/

namespace StringView

theorem traitsCompare_eq_zero_iff (mem : Memory) (n : Nat) :
    ∀ p q : Nat, traitsCompare mem p q n = 0 ↔ ∀ i, i < n → mem (p + i) = mem (q + i) := by
  induction n with
  | zero => intro p q; simp [traitsCompare]
  | succ n ih =>
    intro p q
    unfold traitsCompare
    by_cases h1 : (mem p).toNat < (mem q).toNat
    · simp only [h1, if_true]
      constructor
      · intro h; exact absurd h (by decide)
      · intro h
        have h0 := h 0 (Nat.succ_pos n)
        simp only [Nat.add_zero] at h0
        rw [h0] at h1
        exact absurd h1 (Nat.lt_irrefl _)
    · by_cases h2 : (mem q).toNat < (mem p).toNat
      · simp only [h1, h2, if_true, if_false]
        constructor
        · intro h; exact absurd h (by decide)
        · intro h
          have h0 := h 0 (Nat.succ_pos n)
          simp only [Nat.add_zero] at h0
          rw [h0] at h2
          exact absurd h2 (Nat.lt_irrefl _)
      · simp only [h1, h2, if_false]
        have hpq : mem p = mem q := by
          apply Char.ext
          apply UInt32.ext
          have : (mem p).toNat = (mem q).toNat := by omega
          exact this
        rw [ih (p + 1) (q + 1)]
        constructor
        · intro h i hi
          cases i with
          | zero => simpa using hpq
          | succ j =>
            have := h j (by omega)
            rw [show p + (j + 1) = p + 1 + j by omega, show q + (j + 1) = q + 1 + j by omega]
            exact this
        · intro h i hi
          have := h (i + 1) (by omega)
          rw [show p + 1 + i = p + (i + 1) by omega, show q + 1 + i = q + (i + 1) by omega]
          exact this

theorem stringView_eq_iff (mem : Memory) (x y : StringView) :
    eq mem x y = true ↔
      x.size = y.size ∧ ∀ i, i < x.size → mem (x.data + i) = mem (y.data + i) := by
  unfold eq compare
  constructor
  · intro h
    simp only [Bool.and_eq_true, beq_iff_eq] at h
    obtain ⟨hs, hc⟩ := h
    refine ⟨hs, ?_⟩
    simp only [hs, Nat.min_self, Nat.lt_irrefl, if_false] at hc
    by_cases hz : traitsCompare mem x.data y.data y.size = 0
    · rw [← hs] at hz
      exact (traitsCompare_eq_zero_iff mem x.size x.data y.data).mp hz
    · simp only [hz, if_false] at hc
  · rintro ⟨hs, hc⟩
    have hz : traitsCompare mem x.data y.data y.size = 0 := by
      rw [← hs]
      exact (traitsCompare_eq_zero_iff mem x.size x.data y.data).mpr hc
    simp [hs, hz]

theorem chars_length (mem : Memory) (v : StringView) : (chars mem v).length = v.size := by
  simp [chars]

theorem chars_eq_iff (mem : Memory) (x y : StringView) :
    chars mem x = chars mem y ↔
      x.size = y.size ∧ ∀ i, i < x.size → mem (x.data + i) = mem (y.data + i) := by
  constructor
  · intro h
    have hlen : x.size = y.size := by
      have := congrArg List.length h
      simpa [chars_length] using this
    refine ⟨hlen, fun i hi => ?_⟩
    have hget := congrArg (fun l => l[i]?) h
    simp only [chars] at hget
    rw [List.getElem?_map, List.getElem?_map, List.getElem?_range hi,
      List.getElem?_range (hlen ▸ hi)] at hget
    simpa using hget
  · rintro ⟨hs, hc⟩
    unfold chars
    rw [← hs]
    apply List.map_congr_left
    intro i hi
    exact hc i (List.mem_range.mp hi)

end StringView

namespace Token

theorem toSizeT_distance (start end_ : Nat) (hle : start ≤ end_)
    (hfit : end_ - start < 2 ^ SIZE_BITS) : toSizeT (distance start end_) = end_ - start := by
  unfold toSizeT distance
  have h1 : ((end_ : Int) - (start : Int)) = ((end_ - start : Nat) : Int) := by omega
  rw [h1]
  have h2 : ((2 : Int) ^ SIZE_BITS) = (((2 : Nat) ^ SIZE_BITS : Nat) : Int) := by
    push_cast; rfl
  rw [h2, ← Int.natCast_mod, Int.toNat_natCast]
  exact Nat.mod_eq_of_lt hfit

theorem chars_eq_map_range (mem : Memory) (v : StringView) :
    v.chars mem = (List.range' v.data v.size).map mem := by
  unfold StringView.chars
  rw [List.range'_eq_map_range, List.map_map]
  rfl

theorem token_eq_iff (mem : Memory) (a b : Token) :
    eq mem a b = true ↔ a.tokenType = b.tokenType ∧ lexeme mem a = lexeme mem b := by
  unfold eq
  rw [Bool.and_eq_true, beq_iff_eq, StringView.stringView_eq_iff]
  unfold lexeme
  rw [StringView.chars_eq_iff mem a.value b.value]
  constructor
  · rintro ⟨ht, hs, hc⟩
    exact ⟨ht.symm, hs.symm, fun i hi => (hc i (hs ▸ hi)).symm⟩
  · rintro ⟨ht, hs, hc⟩
    exact ⟨ht.symm, hs.symm, fun i hi => (hc i (hs ▸ hi)).symm⟩

/-- C1: `operator==(const Token &)` is structural. Two tokens compare equal if
and only if they have the same kind and their lexemes are the same character
sequence, and two lexemes are the same sequence exactly when they have the same
length and the same character at every offset, wherever the two views point. -/
theorem C1_eq_structural (mem : Memory) (a b : Token) :
    (eq mem a b = true ↔ a.tokenType = b.tokenType ∧ lexeme mem a = lexeme mem b) ∧
    (lexeme mem a = lexeme mem b ↔
      a.value.size = b.value.size ∧
        ∀ i, i < a.value.size → mem (a.value.data + i) = mem (b.value.data + i)) :=
  ⟨token_eq_iff mem a b, StringView.chars_eq_iff mem a.value b.value⟩

/-- Two views at different addresses of the sample buffer over the same text
`><>` make equal tokens; a view over other text does not. -/
theorem eq_sample :
    eq sampleMemory (ofLen TokenType.FYSH_OPEN 0 3) (ofLen TokenType.FYSH_OPEN 7 3) = true ∧
    eq sampleMemory (ofLen TokenType.FYSH_OPEN 0 3) (ofLen TokenType.FYSH_OPEN 1 3) = false := by
  decide

/-- C2: the variadic `isOneOf(type1, type2, ks...)` is a membership test. With
the two-argument base case being `kind == type1 || kind == type2`, for every
token and every list of two or more kinds it is true if and only if the
token's kind is one of the kinds listed. The recursion is over the list of
further kinds, so it ends. -/
theorem C2_isOneOf_iff_mem (isOneOfBase : Token → TokenType → TokenType → Bool)
    (hbase : ∀ t type1 type2,
      isOneOfBase t type1 type2 = (t.tokenType == type1 || t.tokenType == type2))
    (t : Token) (type1 type2 : TokenType) (ks : List TokenType) :
    isOneOf isOneOfBase t type1 type2 ks = true ↔ t.tokenType ∈ type1 :: type2 :: ks := by
  induction ks generalizing type1 type2 with
  | nil => simp [isOneOf, hbase]
  | cons k ks ih =>
    unfold isOneOf
    rw [Bool.or_eq_true, ih type2 k, beq_iff_eq]
    simp only [List.mem_cons]

/-- C2 at a concrete input: a block-close token tested against four kinds, the
last of which is its own, and against three kinds that are not. -/
theorem C2_isOneOf_iff_mem_witness :
    (isOneOf isOneOf2 (ofType TokenType.FYSH_CLOSE) TokenType.FYSH_OPEN
        TokenType.WTF_OPEN [TokenType.COMMENT, TokenType.FYSH_CLOSE] = true ↔
      (ofType TokenType.FYSH_CLOSE).tokenType ∈
        [TokenType.FYSH_OPEN, TokenType.WTF_OPEN, TokenType.COMMENT, TokenType.FYSH_CLOSE]) ∧
    isOneOf isOneOf2 (ofType TokenType.FYSH_CLOSE) TokenType.FYSH_OPEN
        TokenType.WTF_OPEN [TokenType.COMMENT, TokenType.FYSH_CLOSE] = true ∧
    isOneOf isOneOf2 (ofType TokenType.FYSH_CLOSE) TokenType.FYSH_OPEN
        TokenType.WTF_OPEN [TokenType.COMMENT] = false :=
  ⟨C2_isOneOf_iff_mem isOneOf2 (fun _ _ _ => rfl) (ofType TokenType.FYSH_CLOSE)
      TokenType.FYSH_OPEN TokenType.WTF_OPEN [TokenType.COMMENT, TokenType.FYSH_CLOSE],
    by decide, by decide⟩

/-- C3: the constructor from `{kind, start, end}` builds the same token as the
constructor from `{kind, start, end - start}` whenever `start <= end` are two
positions of one buffer (their distance fits `std::size_t`); the lexeme is the
characters stored at `start, ..., end - 1`, of length `end - start`; the
constructor from the kind alone gives the empty lexeme. -/
theorem C3_constructors_agree (inType : TokenType) (start end_ : Nat) (mem : Memory)
    (hle : start ≤ end_) (hfit : end_ - start < 2 ^ SIZE_BITS) :
    ofRange inType start end_ = ofLen inType start (end_ - start) ∧
    eq mem (ofRange inType start end_) (ofLen inType start (end_ - start)) = true ∧
    lexeme mem (ofRange inType start end_) = (List.range' start (end_ - start)).map mem ∧
    (lexeme mem (ofRange inType start end_)).length = end_ - start ∧
    lexeme mem (ofType inType) = [] := by
  have hsz := toSizeT_distance start end_ hle hfit
  have h1 : ofRange inType start end_ = ofLen inType start (end_ - start) := by
    unfold ofRange ofLen
    rw [hsz]
  refine ⟨h1, ?_, ?_, ?_, ?_⟩
  · rw [h1]
    exact (token_eq_iff mem _ _).mpr ⟨rfl, rfl⟩
  · rw [h1]
    unfold lexeme
    rw [chars_eq_map_range]
    rfl
  · rw [h1]
    unfold lexeme
    rw [StringView.chars_length]
    rfl
  · rfl

/-- C3 at a concrete input: the token of kind identifier over addresses 2 to 5
of a buffer holding `><> o~ ><>`. -/
theorem C3_constructors_agree_witness :
    (2 : Nat) ≤ 5 ∧ (5 : Nat) - 2 < 2 ^ SIZE_BITS ∧
    ofRange TokenType.FYSH_IDENTIFIER 2 5 = ofLen TokenType.FYSH_IDENTIFIER 2 (5 - 2) ∧
    eq sampleMemory (ofRange TokenType.FYSH_IDENTIFIER 2 5)
      (ofLen TokenType.FYSH_IDENTIFIER 2 (5 - 2)) = true ∧
    lexeme sampleMemory (ofRange TokenType.FYSH_IDENTIFIER 2 5)
      = (List.range' 2 (5 - 2)).map sampleMemory ∧
    (lexeme sampleMemory (ofRange TokenType.FYSH_IDENTIFIER 2 5)).length = 5 - 2 ∧
    lexeme sampleMemory (ofType TokenType.FYSH_IDENTIFIER) = [] :=
  ⟨by decide, by decide,
    C3_constructors_agree TokenType.FYSH_IDENTIFIER 2 5 sampleMemory (by decide) (by decide)⟩

theorem lexeme_sample :
    lexeme sampleMemory (ofRange TokenType.FYSH_IDENTIFIER 2 5) = ['>', ' ', 'o'] := by
  decide

end Token

/-! ## main.cc: properties of the driver -/

section Driver

variable {Node Program : Type}

theorem output_ne_AST_iff (o : Options.Output) :
    ¬ o = Options.Output.AST ↔ o = Options.Output.IR := by
  cases o <;> simp

theorem compyle_AST (env : Deps Node Program) (source : String) (opts : Options)
    (hAST : opts.output = Options.Output.AST) :
    compyle env source opts = [Effect.cout (env.dump (env.parseProgram source))] := by
  unfold compyle
  simp [hAST]

theorem compyle_IR_soleError (env : Deps Node Program) (source : String) (opts : Options)
    (raw : String) (hIR : opts.output = Options.Output.IR)
    (hp : env.parseProgram source = [ast.FyshStmt.Error raw]) :
    compyle env source opts = [Effect.cerr ("Error: " ++ raw ++ "\n")] := by
  unfold compyle
  simp [hIR, hp, ast.getIfError]

theorem compyle_IR_other (env : Deps Node Program) (source : String) (opts : Options)
    (hIR : opts.output = Options.Output.IR)
    (hp : ¬ soleError (env.parseProgram source)) :
    compyle env source opts =
      Effect.compyleCall (env.parseProgram source) opts.noOpt ::
        (if env.empty (env.compyle (env.parseProgram source) opts.noOpt) then
          [Effect.cerr "error compyling?\n"]
         else [Effect.print (env.compyle (env.parseProgram source) opts.noOpt)
                opts.outputFilename]) := by
  unfold compyle
  simp only [hIR]
  generalize env.parseProgram source = program at hp ⊢
  match program, hp with
  | [], _ => simp
  | [ast.FyshStmt.Error raw], hp => exact absurd ⟨raw, rfl⟩ hp
  | [ast.FyshStmt.node n], _ => simp [ast.getIfError]
  | _ :: _ :: _, _ => simp

/-- C4: when the parsed program is exactly one `Error` statement the driver,
whatever its options, makes no call of `Compyler::compyle` and no call of
`Program::print`. -/
theorem C4_soleError_no_codegen (env : Deps Node Program) (source : String) (opts : Options)
    (hp : soleError (env.parseProgram source)) :
    Effect.compyleCalls (compyle env source opts) = [] ∧
    Effect.printed (compyle env source opts) = [] ∧
    (compyle env source opts).any Effect.isCompyleCall = false ∧
    (compyle env source opts).any Effect.isPrint = false := by
  obtain ⟨raw, hraw⟩ := hp
  cases hout : opts.output with
  | AST =>
    rw [compyle_AST env source opts hout]
    simp [Effect.compyleCalls, Effect.printed, Effect.isCompyleCall, Effect.isPrint]
  | IR =>
    rw [compyle_IR_soleError env source opts raw hout hraw]
    simp [Effect.compyleCalls, Effect.printed, Effect.isCompyleCall, Effect.isPrint]

/-- C5 as amended: in IR mode, when the parsed program is exactly one `Error`
statement with raw text `raw`, all the driver does is write the line `Error: `
followed by `raw` to standard error. -/
theorem C5_soleError_message_IR (env : Deps Node Program) (source : String) (opts : Options)
    (raw : String) (hIR : opts.output = Options.Output.IR)
    (hp : env.parseProgram source = [ast.FyshStmt.Error raw]) :
    compyle env source opts = [Effect.cerr ("Error: " ++ raw ++ "\n")] ∧
    Effect.stderrText (compyle env source opts) = "Error: " ++ raw ++ "\n" := by
  rw [compyle_IR_soleError env source opts raw hIR hp]
  exact ⟨rfl, by simp [Effect.stderrText]⟩

/-- C6: in IR mode, for a parsed program that is not a sole `Error` statement:
when `Compyler::compyle` returns an empty `Program` the driver writes the line
`error compyling?` to standard error and prints nothing; when it returns a
non-empty `Program` the driver prints that program once, to
`opts.outputFilename`, and writes nothing to standard error. In both cases it
writes nothing to standard output itself. -/
theorem C6_IR_codegen_outcome (env : Deps Node Program) (source : String) (opts : Options)
    (hIR : opts.output = Options.Output.IR)
    (hp : ¬ soleError (env.parseProgram source)) :
    (env.empty (env.compyle (env.parseProgram source) opts.noOpt) = true →
      Effect.stderrText (compyle env source opts) = "error compyling?\n" ∧
      Effect.printed (compyle env source opts) = [] ∧
      Effect.stdoutText (compyle env source opts) = "") ∧
    (env.empty (env.compyle (env.parseProgram source) opts.noOpt) = false →
      Effect.printed (compyle env source opts) =
        [(env.compyle (env.parseProgram source) opts.noOpt, opts.outputFilename)] ∧
      Effect.stderrText (compyle env source opts) = "" ∧
      Effect.stdoutText (compyle env source opts) = "") := by
  rw [compyle_IR_other env source opts hIR hp]
  constructor
  · intro he
    simp [he, Effect.stderrText, Effect.printed, Effect.stdoutText]
  · intro he
    simp [he, Effect.stderrText, Effect.printed, Effect.stdoutText]

/-- C7: in AST mode, for every parsed program, all the driver does is write
the dump of the program to standard output: no call of `Compyler::compyle`,
nothing on standard error, nothing printed to the output destination. -/
theorem C7_AST_mode_dump_only (env : Deps Node Program) (source : String) (opts : Options)
    (hAST : opts.output = Options.Output.AST) :
    compyle env source opts = [Effect.cout (env.dump (env.parseProgram source))] ∧
    Effect.stdoutText (compyle env source opts) = env.dump (env.parseProgram source) ∧
    Effect.compyleCalls (compyle env source opts) = [] ∧
    Effect.stderrText (compyle env source opts) = "" ∧
    Effect.printed (compyle env source opts) = [] := by
  rw [compyle_AST env source opts hAST]
  simp [Effect.stdoutText, Effect.compyleCalls, Effect.stderrText, Effect.printed]

/-- C8: every call of `Compyler::compyle` the driver makes has as arguments the
program `parseProgram` returned and `opts.noOpt`, and every `Program` the
driver prints is the result of that call. -/
theorem C8_compyle_arguments (env : Deps Node Program) (source : String) (opts : Options)
    (call : ast.FyshBlock Node × Bool)
    (hcall : call ∈ Effect.compyleCalls (compyle env source opts)) :
    call = (env.parseProgram source, opts.noOpt) ∧
    ∀ out, out ∈ Effect.printed (compyle env source opts) →
      out.1 = env.compyle (env.parseProgram source) opts.noOpt := by
  cases hout : opts.output with
  | AST =>
    rw [compyle_AST env source opts hout] at hcall
    simp [Effect.compyleCalls] at hcall
  | IR =>
    by_cases hp : soleError (env.parseProgram source)
    · obtain ⟨raw, hraw⟩ := hp
      rw [compyle_IR_soleError env source opts raw hout hraw] at hcall
      simp [Effect.compyleCalls] at hcall
    · rw [compyle_IR_other env source opts hout hp] at hcall ⊢
      constructor
      · by_cases he : env.empty (env.compyle (env.parseProgram source) opts.noOpt) = true
        · simpa [he, Effect.compyleCalls] using hcall
        · simpa [he, Effect.compyleCalls] using hcall
      · intro out hmem
        by_cases he : env.empty (env.compyle (env.parseProgram source) opts.noOpt) = true
        · simp [he, Effect.printed] at hmem
        · simp [he, Effect.printed] at hmem
          rw [hmem]

/-- C9: the driver calls `Compyler::compyle` if and only if the output mode is
IR and the parsed program is not exactly one `Error` statement, and then it
calls it once. In particular, in IR mode the call is made for every program of
two or more statements, whether or not one of them is an `Error`, and for the
empty program. -/
theorem C9_codegen_runs_iff (env : Deps Node Program) (source : String) (opts : Options) :
    (Effect.compyleCalls (compyle env source opts) ≠ [] ↔
      opts.output = Options.Output.IR ∧ ¬ soleError (env.parseProgram source)) ∧
    (Effect.compyleCalls (compyle env source opts) ≠ [] →
      Effect.compyleCalls (compyle env source opts) = [(env.parseProgram source, opts.noOpt)]) ∧
    (opts.output = Options.Output.IR → 2 ≤ (env.parseProgram source).length →
      Effect.compyleCalls (compyle env source opts) = [(env.parseProgram source, opts.noOpt)]) ∧
    (opts.output = Options.Output.IR → env.parseProgram source = [] →
      Effect.compyleCalls (compyle env source opts) = [(env.parseProgram source, opts.noOpt)]) := by
  have hother : opts.output = Options.Output.IR → ¬ soleError (env.parseProgram source) →
      Effect.compyleCalls (compyle env source opts)
        = [(env.parseProgram source, opts.noOpt)] := by
    intro hIR hp
    rw [compyle_IR_other env source opts hIR hp]
    by_cases he : env.empty (env.compyle (env.parseProgram source) opts.noOpt) = true
    · simp [he, Effect.compyleCalls]
    · simp [he, Effect.compyleCalls]
  have hnone : ¬ (opts.output = Options.Output.IR ∧ ¬ soleError (env.parseProgram source)) →
      Effect.compyleCalls (compyle env source opts) = [] := by
    intro h
    cases hout : opts.output with
    | AST =>
      rw [compyle_AST env source opts hout]
      simp [Effect.compyleCalls]
    | IR =>
      have hs : soleError (env.parseProgram source) := by
        by_contra hns
        exact h ⟨hout, hns⟩
      obtain ⟨raw, hraw⟩ := hs
      rw [compyle_IR_soleError env source opts raw hout hraw]
      simp [Effect.compyleCalls]
  refine ⟨⟨?_, ?_⟩, ?_, ?_, ?_⟩
  · intro hne
    by_contra h
    exact hne (hnone h)
  · rintro ⟨hIR, hp⟩
    rw [hother hIR hp]
    simp
  · intro hne
    by_cases h : opts.output = Options.Output.IR ∧ ¬ soleError (env.parseProgram source)
    · exact hother h.1 h.2
    · exact absurd (hnone h) hne
  · intro hIR hlen
    apply hother hIR
    rintro ⟨raw, hraw⟩
    rw [hraw] at hlen
    simp at hlen
  · intro hIR hnil
    apply hother hIR
    rintro ⟨raw, hraw⟩
    rw [hraw] at hnil
    simp at hnil

end Driver

theorem sampleDeps_parse_wtf :
    sampleDeps.parseProgram "wtf" = [ast.FyshStmt.Error "wtf"] := by
  decide

theorem sampleDeps_wtf_soleError : soleError (sampleDeps.parseProgram "wtf") :=
  ⟨"wtf", sampleDeps_parse_wtf⟩

theorem sampleDeps_not_soleError_two : ¬ soleError (sampleDeps.parseProgram "1 wtf") := by
  rintro ⟨raw, hraw⟩
  have h0 : sampleDeps.parseProgram "1 wtf"
      = [ast.FyshStmt.node 1, ast.FyshStmt.Error "wtf"] := by decide
  rw [h0] at hraw
  simp at hraw

theorem sampleDeps_not_soleError_one : ¬ soleError (sampleDeps.parseProgram "1") := by
  rintro ⟨raw, hraw⟩
  have h0 : sampleDeps.parseProgram "1" = [ast.FyshStmt.node 0] := by decide
  rw [h0] at hraw
  simp at hraw

/-- C4 at a concrete input: the source `wtf`, a sole `Error`, in IR mode. -/
theorem C4_soleError_no_codegen_witness :
    soleError (sampleDeps.parseProgram "wtf") ∧
    Effect.compyleCalls (compyle sampleDeps "wtf" { output := Options.Output.IR }) = [] ∧
    Effect.printed (compyle sampleDeps "wtf" { output := Options.Output.IR }) = [] ∧
    (compyle sampleDeps "wtf" { output := Options.Output.IR }).any Effect.isCompyleCall = false ∧
    (compyle sampleDeps "wtf" { output := Options.Output.IR }).any Effect.isPrint = false :=
  ⟨sampleDeps_wtf_soleError,
    C4_soleError_no_codegen sampleDeps "wtf" { output := Options.Output.IR }
      sampleDeps_wtf_soleError⟩

/-- C5 as stated fails in AST mode: for the source `wtf`, a sole `Error`, the
driver writes the dump to standard output and nothing to standard error. -/
theorem C5_counterexample_AST_mode :
    sampleDeps.parseProgram "wtf" = [ast.FyshStmt.Error "wtf"] ∧
    compyle sampleDeps "wtf" { output := Options.Output.AST } = [Effect.cout "*"] ∧
    Effect.stderrText (compyle sampleDeps "wtf" { output := Options.Output.AST }) = "" ∧
    Effect.stderrText (compyle sampleDeps "wtf" { output := Options.Output.AST })
      ≠ "Error: " ++ "wtf" ++ "\n" := by
  decide

/-- C5 as amended at a concrete input: the source `wtf` in IR mode. -/
theorem C5_soleError_message_IR_witness :
    ({ output := Options.Output.IR } : Options).output = Options.Output.IR ∧
    sampleDeps.parseProgram "wtf" = [ast.FyshStmt.Error "wtf"] ∧
    compyle sampleDeps "wtf" { output := Options.Output.IR }
      = [Effect.cerr ("Error: " ++ "wtf" ++ "\n")] ∧
    Effect.stderrText (compyle sampleDeps "wtf" { output := Options.Output.IR })
      = "Error: " ++ "wtf" ++ "\n" :=
  ⟨rfl, sampleDeps_parse_wtf,
    C5_soleError_message_IR sampleDeps "wtf" { output := Options.Output.IR } "wtf" rfl
      sampleDeps_parse_wtf⟩

/-- C6 at a concrete input: the source `1`, one statement that is not an
`Error`, in IR mode with destination `out.ll`; code generation succeeds. -/
theorem C6_IR_codegen_outcome_witness :
    ¬ soleError (sampleDeps.parseProgram "1") ∧
    sampleDeps.empty (sampleDeps.compyle (sampleDeps.parseProgram "1") true) = false ∧
    Effect.printed (compyle sampleDeps "1"
        { output := Options.Output.IR, noOpt := true, outputFilename := "out.ll" })
      = [(sampleDeps.compyle (sampleDeps.parseProgram "1") true, "out.ll")] ∧
    Effect.stderrText (compyle sampleDeps "1"
        { output := Options.Output.IR, noOpt := true, outputFilename := "out.ll" }) = "" ∧
    Effect.stdoutText (compyle sampleDeps "1"
        { output := Options.Output.IR, noOpt := true, outputFilename := "out.ll" }) = "" :=
  ⟨sampleDeps_not_soleError_one, by decide,
    (C6_IR_codegen_outcome sampleDeps "1"
      { output := Options.Output.IR, noOpt := true, outputFilename := "out.ll" } rfl
      sampleDeps_not_soleError_one).2 (by decide)⟩

/-- C7 at a concrete input: the source `wtf`, a sole `Error`, in AST mode. -/
theorem C7_AST_mode_dump_only_witness :
    compyle sampleDeps "wtf" { output := Options.Output.AST }
      = [Effect.cout (sampleDeps.dump (sampleDeps.parseProgram "wtf"))] ∧
    Effect.stdoutText (compyle sampleDeps "wtf" { output := Options.Output.AST })
      = sampleDeps.dump (sampleDeps.parseProgram "wtf") ∧
    Effect.compyleCalls (compyle sampleDeps "wtf" { output := Options.Output.AST }) = [] ∧
    Effect.stderrText (compyle sampleDeps "wtf" { output := Options.Output.AST }) = "" ∧
    Effect.printed (compyle sampleDeps "wtf" { output := Options.Output.AST }) = [] :=
  C7_AST_mode_dump_only sampleDeps "wtf" { output := Options.Output.AST } rfl

/-- C8 at a concrete input: the source `1 wtf` in IR mode with `noOpt` set;
the one call made has the parsed program and `true` as arguments. -/
theorem C8_compyle_arguments_witness :
    ((sampleDeps.parseProgram "1 wtf", true) ∈
      Effect.compyleCalls (compyle sampleDeps "1 wtf"
        { output := Options.Output.IR, noOpt := true })) ∧
    ((sampleDeps.parseProgram "1 wtf", true) = (sampleDeps.parseProgram "1 wtf", true) ∧
      ∀ out, out ∈ Effect.printed (compyle sampleDeps "1 wtf"
          { output := Options.Output.IR, noOpt := true }) →
        out.1 = sampleDeps.compyle (sampleDeps.parseProgram "1 wtf") true) :=
  ⟨by decide,
    C8_compyle_arguments sampleDeps "1 wtf" { output := Options.Output.IR, noOpt := true }
      (sampleDeps.parseProgram "1 wtf", true) (by decide)⟩

/-- C9 at concrete inputs: in IR mode code generation runs for the source
`1 wtf` (two statements, one an `Error`) and for the empty source. -/
theorem C9_codegen_runs_iff_witness :
    (2 ≤ (sampleDeps.parseProgram "1 wtf").length ∧
      Effect.compyleCalls (compyle sampleDeps "1 wtf" { output := Options.Output.IR })
        = [(sampleDeps.parseProgram "1 wtf", false)]) ∧
    (sampleDeps.parseProgram "" = [] ∧
      Effect.compyleCalls (compyle sampleDeps "" { output := Options.Output.IR })
        = [(sampleDeps.parseProgram "", false)]) :=
  ⟨⟨by decide,
      (C9_codegen_runs_iff sampleDeps "1 wtf" { output := Options.Output.IR }).2.2.1 rfl
        (by decide)⟩,
    ⟨by decide,
      (C9_codegen_runs_iff sampleDeps "" { output := Options.Output.IR }).2.2.2 rfl
        (by decide)⟩⟩

/-! ## main.cc: properties of parseOptions -/

theorem toChar_neg_one : toChar (-1) = -1 := by decide

theorem getoptChar_measure (optstring : List Char) (c : Char) (cs : List Char)
    (rest : List String) :
    (getoptChar optstring c cs rest).2.measure
      < 1 + cs.length + (rest.map (fun a => a.length + 1)).sum := by
  unfold getoptChar
  cases optLookup optstring c with
  | none => simp [GetoptState.measure]
  | some b =>
    cases b with
    | false => simp [GetoptState.measure]
    | true =>
      cases cs with
      | cons d ds => simp [GetoptState.measure]
      | nil =>
        cases rest with
        | nil => simp [GetoptState.measure]
        | cons a rest1 => simp [GetoptState.measure]; omega

theorem nextCluster_measure (permute : Bool) (rest : List String) (c : Char)
    (cs : List Char) (rest1 : List String)
    (h : nextCluster permute rest = some (c, cs, rest1)) :
    cs.length + 2 + (rest1.map (fun a => a.length + 1)).sum
      ≤ (rest.map (fun a => a.length + 1)).sum := by
  induction rest with
  | nil => simp [nextCluster] at h
  | cons a rest ih =>
    unfold nextCluster at h
    by_cases hdd : a = "--"
    · simp [hdd] at h
    · simp only [hdd, if_false] at h
      split at h
      · rename_i d ds hl
        simp only [Option.some.injEq, Prod.mk.injEq] at h
        obtain ⟨hc, hcs, hr⟩ := h
        subst hc hcs hr
        have hlen : a.length = a.toList.length := by cases a; rfl
        rw [hl] at hlen
        simp only [List.length_cons] at hlen
        simp only [List.map_cons, List.sum_cons]
        omega
      · cases permute with
        | true =>
          simp only [if_true] at h
          have := ih h
          simp only [List.map_cons, List.sum_cons]
          omega
        | false => simp at h

theorem getopt_measure (permute : Bool) (optstring : List Char) (st : GetoptState) :
    (getopt permute optstring st).1 = -1 ∨
      (getopt permute optstring st).2.measure < st.measure := by
  unfold getopt
  cases hn : st.nextchar with
  | cons c cs =>
    right
    have := getoptChar_measure optstring c cs st.rest
    simp only [GetoptState.measure, hn, List.length_cons] at this ⊢
    omega
  | nil =>
    cases hc : nextCluster permute st.rest with
    | none => left; rfl
    | some found =>
      obtain ⟨c, cs, rest1⟩ := found
      right
      have h1 := getoptChar_measure optstring c cs rest1
      have h2 := nextCluster_measure permute st.rest c cs rest1 hc
      simp only [GetoptState.measure, hn, List.length_nil] at h1 ⊢
      omega

/-- The loop of `parseOptions` ends: with more fuel than there is left to scan
it returns the options or leaves through `-h`. -/
theorem parseOptionsLoop_terminates (permute : Bool) (argv0 : String) (fuel : Nat) :
    ∀ (st : GetoptState) (opts : Options), st.measure < fuel →
      ∃ r, parseOptionsLoop permute argv0 fuel st opts = some r := by
  induction fuel with
  | zero => intro st opts h; omega
  | succ fuel ih =>
    intro st opts h
    unfold parseOptionsLoop
    rcases getopt_measure permute "o:nah".toList st with hend | hlt
    · simp only [hend, toChar_neg_one, if_true]
      exact ⟨_, rfl⟩
    · have hfuel : (getopt permute "o:nah".toList st).2.measure < fuel := by omega
      simp only []
      split
      · exact ⟨_, rfl⟩
      · split
        · exact ih _ _ hfuel
        · split
          · exact ih _ _ hfuel
          · split
            · exact ih _ _ hfuel
            · split
              · exact ⟨_, rfl⟩
              · exact ih _ _ hfuel

/-- The `parseOptions` ends on every `argv`, whatever the uninitialised member
holds. -/
theorem parseOptions_terminates (permute : Bool) (indeterminate : Options.Output)
    (argv : List String) : ∃ r, parseOptions permute indeterminate argv = some r := by
  unfold parseOptions
  apply parseOptionsLoop_terminates
  simp [GetoptState.measure, parseOptionsFuel]

theorem parseOptionsLoop_end (permute : Bool) (argv0 : String) (fuel : Nat) (oa : String)
    (opts : Options) :
    parseOptionsLoop permute argv0 (fuel + 1) { nextchar := [], rest := [], optarg := oa } opts
      = some (ParseResult.returned opts) := rfl

theorem parseOptionsLoop_a (permute : Bool) (argv0 : String) (fuel : Nat) (oa : String)
    (rest : List String) (opts : Options) :
    parseOptionsLoop permute argv0 (fuel + 1)
        { nextchar := [], rest := "-a" :: rest, optarg := oa } opts
      = parseOptionsLoop permute argv0 fuel { nextchar := [], rest := rest }
          { opts with output := Options.Output.AST } := rfl

theorem parseOptionsLoop_n (permute : Bool) (argv0 : String) (fuel : Nat) (oa : String)
    (rest : List String) (opts : Options) :
    parseOptionsLoop permute argv0 (fuel + 1)
        { nextchar := [], rest := "-n" :: rest, optarg := oa } opts
      = parseOptionsLoop permute argv0 fuel { nextchar := [], rest := rest }
          { opts with noOpt := true } := rfl

theorem parseOptionsLoop_o (permute : Bool) (argv0 : String) (fuel : Nat) (oa arg : String)
    (rest : List String) (opts : Options) :
    parseOptionsLoop permute argv0 (fuel + 1)
        { nextchar := [], rest := "-o" :: arg :: rest, optarg := oa } opts
      = parseOptionsLoop permute argv0 fuel { nextchar := [], rest := rest, optarg := arg }
          { opts with outputFilename := arg } := rfl

theorem optLookup_unknown (c : Char) (hc : c ∉ ['o', 'n', 'a', 'h', '-']) :
    optLookup "o:nah".toList c = none := by
  simp only [List.mem_cons, List.mem_singleton, List.not_mem_nil, or_false, not_or] at hc
  obtain ⟨ho, hn, ha, hh, _⟩ := hc
  have e : "o:nah".toList = ['o', ':', 'n', 'a', 'h'] := rfl
  rw [e]
  simp [optLookup, Ne.symm ho, Ne.symm hn, Ne.symm ha, Ne.symm hh]
  exact fun h => h.symm

theorem parseOptionsLoop_unknown (permute : Bool) (argv0 : String) (fuel : Nat) (oa : String)
    (c : Char) (hc : c ∉ ['o', 'n', 'a', 'h', '-'])
    (rest : List String) (opts : Options) :
    parseOptionsLoop permute argv0 (fuel + 1)
        { nextchar := [], rest := String.mk ['-', c] :: rest, optarg := oa } opts
      = parseOptionsLoop permute argv0 fuel { nextchar := [], rest := rest } opts := by
  have hdash : c ≠ '-' := by
    intro h
    apply hc
    simp [h]
  have hne : ¬ (String.mk ['-', c] = "--") := by
    intro h
    have h2 : ['-', c] = ['-', '-'] := congrArg String.toList h
    simp at h2
    exact hdash h2
  have hg : getopt permute "o:nah".toList
      { nextchar := [], rest := String.mk ['-', c] :: rest, optarg := oa }
      = ((('?').toNat : Int), { nextchar := [], rest := rest }) := by
    unfold getopt
    simp only [nextCluster, hne, if_false]
    show getoptChar "o:nah".toList c [] rest = _
    unfold getoptChar
    rw [optLookup_unknown c hc]
  rw [parseOptionsLoop]
  simp only [hg]
  rfl

theorem parseOptionsLoop_flags (permute : Bool) (argv0 : String) :
    ∀ (flags : List Flag) (fuel : Nat) (oa : String) (opts : Options),
      (∀ f, f ∈ flags → f.wellFormed) → flags.length < fuel →
      parseOptionsLoop permute argv0 fuel
          { nextchar := [], rest := (flags.map Flag.render).flatten, optarg := oa } opts
        = some (ParseResult.returned
            { output := if Flag.a ∈ flags then Options.Output.AST else opts.output,
              noOpt := opts.noOpt || decide (Flag.n ∈ flags),
              outputFilename := Flag.lastOutput opts.outputFilename flags }) := by
  intro flags
  induction flags with
  | nil =>
    intro fuel oa opts _ hfuel
    obtain ⟨fuel, rfl⟩ : ∃ k, fuel = k + 1 := ⟨fuel - 1, by simp at hfuel; omega⟩
    simp [parseOptionsLoop_end, Flag.lastOutput]
  | cons f fs ih =>
    intro fuel oa opts hwf hfuel
    obtain ⟨fuel, rfl⟩ : ∃ k, fuel = k + 1 := ⟨fuel - 1, by simp at hfuel; omega⟩
    have hfs : ∀ g, g ∈ fs → g.wellFormed := fun g hg => hwf g (List.mem_cons_of_mem _ hg)
    have hlen : fs.length < fuel := by simp at hfuel; omega
    cases f with
    | a =>
      simp only [List.map_cons, List.flatten_cons, Flag.render, List.singleton_append]
      rw [parseOptionsLoop_a, ih fuel "" _ hfs hlen]
      simp [Flag.lastOutput]
    | n =>
      simp only [List.map_cons, List.flatten_cons, Flag.render, List.singleton_append]
      rw [parseOptionsLoop_n, ih fuel "" _ hfs hlen]
      simp [Flag.lastOutput]
    | o arg =>
      simp only [List.map_cons, List.flatten_cons, Flag.render, List.cons_append,
        List.nil_append]
      rw [parseOptionsLoop_o, ih fuel arg _ hfs hlen]
      simp [Flag.lastOutput]
    | unknown c =>
      have hc : c ∉ ['o', 'n', 'a', 'h', '-'] := hwf (Flag.unknown c) (List.mem_cons_self _ _)
      simp only [List.map_cons, List.flatten_cons, Flag.render, List.singleton_append]
      rw [parseOptionsLoop_unknown permute argv0 fuel oa c hc, ih fuel "" _ hfs hlen]
      simp [Flag.lastOutput]

theorem length_le_fuel (flags : List Flag) :
    flags.length < parseOptionsFuel (flags.map Flag.render).flatten := by
  unfold parseOptionsFuel
  have h : flags.length ≤ (((flags.map Flag.render).flatten).map (fun a => a.length + 1)).sum := by
    induction flags with
    | nil => simp
    | cons f fs ih =>
      cases f <;>
        simp only [List.map_cons, List.flatten_cons, Flag.render, List.cons_append,
          List.nil_append, List.sum_cons, List.length_cons] <;> omega
  omega

/-- What `parseOptions` returns for an `argv` made of the flags `-a`, `-n`,
`-o ARG` and unknown flags: the mode is AST when `-a` occurs and otherwise
whatever the uninitialised member `output` holds; `noOpt` is set exactly when
`-n` occurs; the destination is the argument of the last `-o`, `-` when there
is none; unknown flags change nothing. -/
theorem parseOptions_renderArgv (permute : Bool) (indeterminate : Options.Output)
    (prog : String) (flags : List Flag) (hwf : ∀ f, f ∈ flags → f.wellFormed) :
    parseOptions permute indeterminate (renderArgv prog flags)
      = some (ParseResult.returned
          { output := if Flag.a ∈ flags then Options.Output.AST else indeterminate,
            noOpt := decide (Flag.n ∈ flags),
            outputFilename := Flag.lastOutput "-" flags }) := by
  unfold parseOptions renderArgv
  simp only [List.tail_cons]
  rw [parseOptionsLoop_flags permute _ flags _ "" _ hwf (length_le_fuel flags)]
  simp

/-- C10, the defect: `Options opts;` leaves the member `output` uninitialised
and no flag selects IR, so without `-a` the mode `parseOptions` returns is
whatever the storage held. Run with no flags where it holds the value of
`Output::AST`, the result is AST mode although `-a` does not occur, and the
result differs from the run where it holds the value of `Output::IR`. -/
theorem C10_output_uninitialised :
    parseOptions true Options.Output.AST (renderArgv "fysh" [])
      = some (ParseResult.returned
          { output := Options.Output.AST, noOpt := false, outputFilename := "-" }) ∧
    Flag.a ∉ ([] : List Flag) ∧
    parseOptions true Options.Output.AST (renderArgv "fysh" [Flag.n, Flag.o "out.ll"])
      = some (ParseResult.returned
          { output := Options.Output.AST, noOpt := true, outputFilename := "out.ll" }) ∧
    parseOptions true Options.Output.AST (renderArgv "fysh" [])
      ≠ parseOptions true Options.Output.IR (renderArgv "fysh" []) := by
  decide

end Fysh
